import Mathlib

/-!
Verification of `src/modules/xml_to_dataframe.py` (Wikipedia revision-history
XML → per-article sorted tables).

The Python pipeline is shallowly embedded:

* Parsed XML documents are rose trees (`Node`); `BeautifulSoup.find(name)` is
  `findIn`/`findInList` (first matching element in pre-order document order,
  searching all descendants); `Tag.text` is `Node.getText` (concatenation of
  all descendant strings); Python truthiness of a tag (`if tag:` — false for
  `None` and for a tag with no contents, because `Tag` exposes `__len__` over
  its contents and defines no `__bool__`) is `truthy`/`truthyOpt`.
* `parse_revision_xml` is translated line by line.
* A discovered file is an `XmlFile`: its path, the `year`/`month` directory
  names (`file_path.parent.parent.name` / `file_path.parent.name`), and the
  combined outcome of `Path.read_text` plus soup construction as
  `Except String (List Node)` (an `error` is an exception escaping the `try`
  body; the message is the exception text).
* The per-batch loop body (read, extract, augment, or log and skip) is
  `processBatch`; slicing `xml_files[i:i+batch_size]` over
  `range(0, len(xml_files), batch_size)` is `chunks` (the fuel formulation is
  definitionally executable; it agrees with the Python slicing for every
  positive batch size, and Python raises on step 0 so that case is out of
  scope of every claim).
* `pd.to_datetime` over the timestamp column is `toDatetimeRow`, parameterised
  by an arbitrary timestamp parser `parseTs : String → Option Nat`
  (`None` entries become `NaT` = `Option.none`; an unparseable string raises,
  i.e. yields `Except.error`).
* `final_df.sort_values(timestamp, ascending=False)` is `sort_values_desc`,
  as pandas `nargsort` realises `ascending=False`: the non-NaT values and
  their positions are REVERSED first, a nondescending `argsort` runs on the
  reversed data (numpy quicksort, which is a stable insertion sort below the
  numpy small-array cutoff of 16 elements — `isortAsc` models that stable
  pass), and the resulting indexer is REVERSED again; the double reversal
  leaves rows with equal keys in their original relative order, which is how
  pandas makes descending sorts tie-stable.  The NaT positions are appended
  last in original order (`na_position` defaults to `last`).  Rows are tagged
  with their position in the concatenated table (`List.enum`), which models
  the pandas index produced by `pd.concat(..., ignore_index=True)`.
* `process_article_directory` and the driver loop of `main` are translated on
  top of these, with console output modelled as lists of lines and the feather
  files as a list of (article name, table) pairs.
-/

namespace XmlToDf

/-- A node of a parsed XML document: a text node or an element with a tag name
and a list of children (the BeautifulSoup `contents`). -/
inductive Node where
  | text : String → Node
  | elem : String → List Node → Node

mutual
/-- BeautifulSoup `tag.text` / `get_text()`: concatenation of every descendant
string, in document order. -/
def Node.getText : Node → String
  | .text s => s
  | .elem _ cs => getTextList cs

/-- Text concatenation over a list of siblings. -/
def getTextList : List Node → String
  | [] => ""
  | c :: cs => c.getText ++ getTextList cs
end

/-- Python truthiness of a parse-tree object: a `NavigableString` is truthy
iff nonempty (it is a `str`), a `Tag` is truthy iff it has contents (`Tag`
defines `__len__ = len(self.contents)` and no `__bool__`). -/
def truthy : Node → Bool
  | .text s => !(s == "")
  | .elem _ cs => !cs.isEmpty

mutual
/-- BeautifulSoup search order: a candidate node matches itself first, then
its descendants are searched in pre-order. -/
def findIn (nm : String) : Node → Option Node
  | .text _ => none
  | .elem n cs => if n == nm then some (.elem n cs) else findInList nm cs

/-- Model of the soup-level find over a list of sibling nodes: first match in document
order, searching every descendant. -/
def findInList (nm : String) : List Node → Option Node
  | [] => none
  | c :: cs =>
    match findIn nm c with
    | some r => some r
    | none => findInList nm cs
end

/-- Model of `tag.find(nm)`: search the descendants of `tag` (not `tag` itself). -/
def Node.find (e : Node) (nm : String) : Option Node :=
  match e with
  | .text _ => none
  | .elem _ cs => findInList nm cs

/-- Truthiness of `tag.find(...)`: false for `None` and for an empty tag. -/
def truthyOpt : Option Node → Bool
  | none => false
  | some n => truthy n

/-- The recurring Python idiom `E.text if E else None` applied to a find
result `E`. -/
def textIfTruthy : Option Node → Option String
  | none => none
  | some n => if truthy n then some n.getText else none

/-- The dictionary built by `parse_revision_xml` (lines 46–57).  `text` is
`some _` exactly when the `text` key is present in the dictionary. -/
structure RevisionRecord where
  revision_id : Option String
  timestamp : Option String
  username : Option String
  userid : Option String
  comment : Option String
  text_length : Nat
  text : Option String
deriving DecidableEq, Repr

/-- Lines 19–27 of the source: contributor sub-extraction, reached only when
`contributor` is truthy.  Returns `(username, userid)`. -/
def contributorFields (contributor : Node) : Option String × Option String :=
  let username :=
    match contributor.find "username" with
    | some u =>
      if truthy u then some u.getText
      else textIfTruthy (contributor.find "ip")
    | none => textIfTruthy (contributor.find "ip")
  let userid := textIfTruthy (contributor.find "id")
  (username, userid)

/-- Translation of `parse_revision_xml` (source lines 7–59).  The input is the parsed
document (the children of the soup object); `none` models the empty
dictionary `{}`, which is falsy at the call site. -/
def parse_revision_xml (doc : List Node) (include_text : Bool) : Option RevisionRecord :=
  match findInList "revision" doc with
  | none => none
  | some revision =>
    if truthy revision then
      let userpair :=
        match revision.find "contributor" with
        | some c => if truthy c then contributorFields c else (none, none)
        | none => (none, none)
      let text_content :=
        match textIfTruthy (revision.find "text") with
        | some s => s
        | none => ""
      some {
        revision_id := textIfTruthy (revision.find "id")
        timestamp := textIfTruthy (revision.find "timestamp")
        username := userpair.1
        userid := userpair.2
        comment := textIfTruthy (revision.find "comment")
        text_length := text_content.length
        text := if include_text then some text_content else none }
    else none

/-- One discovered XML file: its path, the year/month directory names derived
from the path (lines 90–91), and the outcome of reading + soup-parsing its
contents (`error e` = an exception with text `e` escaping the `try` body). -/
structure XmlFile where
  path : String
  year : String
  month : String
  content : Except String (List Node)

/-- A successfully extracted record augmented with `year`/`month`
(lines 88–92). -/
structure Row where
  record : RevisionRecord
  year : String
  month : String
deriving DecidableEq, Repr

/-- The row contributed by one file of a batch, if any: a read/parse failure
or an empty extraction result contributes none (lines 84–94). -/
def rowOf (include_text : Bool) (f : XmlFile) : Option Row :=
  match f.content with
  | .error _ => none
  | .ok doc =>
    match parse_revision_xml doc include_text with
    | some d => some { record := d, year := f.year, month := f.month }
    | none => none

/-- The console error line contributed by one file of a batch, if any
(line 94): only a read/parse failure is logged. -/
def logOf (f : XmlFile) : Option String :=
  match f.content with
  | .error e => some ("Error processing " ++ f.path ++ ": " ++ e)
  | .ok _ => none

/-- The body of the per-batch loop (lines 82–94): the collected
`revision_data` records and the error lines printed for this batch. -/
def processBatch (batch : List XmlFile) (include_text : Bool) : List Row × List String :=
  (batch.filterMap (rowOf include_text), batch.filterMap logOf)

/-- Fuel-driven chunking; the fuel (initially the list length) only makes the
recursion structural, so that the definition evaluates by `rfl`. -/
def chunksGo (b : Nat) : Nat → List α → List (List α)
  | _, [] => []
  | 0, _ => []
  | fuel + 1, l => l.take b :: chunksGo b fuel (l.drop b)

/-- The slices `xml_files[i : i + batch_size]` for
`i in range(0, len(xml_files), batch_size)` (lines 78–81), for a positive
batch size (Python raises on step 0). -/
def chunks (b : Nat) (l : List α) : List (List α) :=
  chunksGo b l.length l

/-- The datetime a row carries after `pd.to_datetime` replaces the timestamp
column: `none` is `NaT` (from a `None` entry), `some v` a parsed value. -/
structure FinalRow where
  row : Row
  ts : Option Nat
deriving DecidableEq, Repr

/-- Action of `pd.to_datetime` on one entry of the timestamp column (line 104), using
the ambient parser `parseTs`: `None` becomes `NaT`, an unparseable string
raises. -/
def toDatetimeRow (parseTs : String → Option Nat) (r : Row) : Except String FinalRow :=
  match r.record.timestamp with
  | none => .ok { row := r, ts := none }
  | some s =>
    match parseTs s with
    | some v => .ok { row := r, ts := some v }
    | none => .error ("could not convert " ++ s)

/-- Sort key of an indexed row (only used on rows whose `ts` is `some _`). -/
def tsKey (p : Nat × FinalRow) : Nat := p.2.ts.getD 0

/-- Whether a row has a parsed (non-NaT) timestamp. -/
def hasTs (p : Nat × FinalRow) : Bool := p.2.ts.isSome

/-- Insert a row into a nondescending run, after every row of equal or
smaller key — the stable placement an insertion sort performs. -/
def insertAsc (x : Nat × FinalRow) : List (Nat × FinalRow) → List (Nat × FinalRow)
  | [] => [x]
  | y :: ys => if tsKey x < tsKey y then x :: y :: ys else y :: insertAsc x ys

/-- The stable nondescending argsort pass of numpy quicksort in the
small-array (insertion sort) regime. -/
def isortAsc (l : List (Nat × FinalRow)) : List (Nat × FinalRow) :=
  l.foldl (fun acc x => insertAsc x acc) []

/-- Translation of the descending `sort_values` call (line 105) as pandas
`nargsort` realises it: the non-NaT rows (values with their positions) are
reversed, stably sorted nondescending, and the result is reversed again —
the double reversal keeps rows with equal keys in their pre-sort relative
order; NaT rows are appended last in their original order. -/
def sort_values_desc (rows : List (Nat × FinalRow)) : List (Nat × FinalRow) :=
  (isortAsc (rows.filter hasTs).reverse).reverse ++ rows.filter (fun p => !hasTs p)

/-- Translation of `process_article_directory` (lines 61–105) after file discovery, taking
the discovered file list as input.  First component: `Except.error` models
the `pd.to_datetime` exception escaping the function, `ok none` the `return
None` paths, `ok (some t)` the returned table (rows tagged with their
pre-sort index from `pd.concat(..., ignore_index=True)`).  Second component:
the error lines printed while processing. -/
def process_article_directory (parseTs : String → Option Nat) (xml_files : List XmlFile)
    (batch_size : Nat) (include_text : Bool) :
    Except String (Option (List (Nat × FinalRow))) × List String :=
  if xml_files.isEmpty then (.ok none, [])
  else
    let batches := (chunks batch_size xml_files).map (fun c => processBatch c include_text)
    let log := (batches.map Prod.snd).flatten
    let dataframes := (batches.map Prod.fst).filter (fun d => !d.isEmpty)
    if dataframes.isEmpty then (.ok none, log)
    else
      match dataframes.flatten.mapM (toDatetimeRow parseTs) with
      | .error e => (.error e, log)
      | .ok frows => (.ok (some (sort_values_desc frows.enum)), log)

/-- The summary block `print_summary` emits for one article (lines 107–116),
abstracted to a single marker line (the claims only observe whether a summary
is printed for an article). -/
def print_summary_line (name : String) (t : List (Nat × FinalRow)) : String :=
  "Summary for " ++ name ++ ": total revisions " ++ toString t.length

/-- Observable outcome of a run of `main`: the feather files written (article
name and table), the summary blocks printed, the error lines printed, and the
exception that aborted the run, if any. -/
structure RunOutcome where
  outputs : List (String × List (Nat × FinalRow))
  summaries : List String
  log : List String
  fatal : Option String
deriving DecidableEq, Repr

/-- The article loop of `main` (lines 129–138), over the already-discovered
(article name, file list) pairs.  An exception escaping
`process_article_directory` aborts the loop: nothing of the remaining
articles is processed. -/
def mainRun (parseTs : String → Option Nat) (batch_size : Nat) (include_text : Bool) :
    List (String × List XmlFile) → RunOutcome
  | [] => { outputs := [], summaries := [], log := [], fatal := none }
  | (name, files) :: rest =>
    match process_article_directory parseTs files batch_size include_text with
    | (.error e, log) => { outputs := [], summaries := [], log := log, fatal := some e }
    | (.ok none, log) =>
      let r := mainRun parseTs batch_size include_text rest
      { r with log := log ++ r.log }
    | (.ok (some t), log) =>
      let r := mainRun parseTs batch_size include_text rest
      { outputs := (name, t) :: r.outputs
        summaries := print_summary_line name t :: r.summaries
        log := log ++ r.log
        fatal := r.fatal }

/-! ### Definitions taken from the words of the specification (comparison targets) -/

/-- Modelled from the spec and claim wording only: lookup among the DIRECT
children of an element (the claim phrase "its own child element"), to be
compared with the recursive `Node.find` the source uses. -/
def findChildList (nm : String) : List Node → Option Node
  | [] => none
  | Node.text _ :: rest => findChildList nm rest
  | Node.elem n cs :: rest =>
    if n == nm then some (.elem n cs) else findChildList nm rest

/-- Direct-child lookup below an element (claim wording, not source). -/
def findChild (e : Node) (nm : String) : Option Node :=
  match e with
  | .text _ => none
  | .elem _ cs => findChildList nm cs

/-- The claim phrase for the text content of the revision: the text of the
revision `text` element, the empty string when that element is missing. -/
def revisionTextContent (doc : List Node) : String :=
  match findInList "revision" doc with
  | none => ""
  | some rev =>
    match rev.find "text" with
    | none => ""
    | some te => te.getText

/-! ### Observables used in claim statements -/

/-- Descending-sort shape of two rows in table order, including the tie and
NaT behaviour of the embedded sort: a non-NaT row never follows a NaT row,
parsed values are nonincreasing, and two rows with EQUAL parsed values occur
in strictly INCREASING pre-sort index order — their pre-sort (file-discovery)
relative order is preserved, i.e. the sort is stable on ties. -/
def afterInSortB (a c : Nat × FinalRow) : Bool :=
  match a.2.ts, c.2.ts with
  | some x, some y => decide (y ≤ x) && (!(x == y) || decide (a.1 < c.1))
  | some _, none => true
  | none, none => true
  | none, some _ => false

/-- The timestamp entry of the row makes `pd.to_datetime` raise: it is a string
the ambient parser rejects (a `None` entry becomes `NaT` and never raises). -/
def badTs (parseTs : String → Option Nat) (r : Row) : Bool :=
  match r.record.timestamp with
  | some s => (parseTs s).isNone
  | none => false

/-- The timestamp entry of the row passes `pd.to_datetime` without raising. -/
def goodTs (parseTs : String → Option Nat) (r : Row) : Bool :=
  match r.record.timestamp with
  | some s => (parseTs s).isSome
  | none => true

/-- The computation returned normally (no exception escaped). -/
def isOkE : Except String α → Bool
  | .ok _ => true
  | .error _ => false

/-- The exception text carried by an `error` outcome, if any. -/
def errOf : Except String α → Option String
  | .error e => some e
  | .ok _ => none

/-! ### Chunking and concatenation lemmas -/

theorem chunksGo_flatten {b : Nat} (hb : 0 < b) :
    ∀ (fuel : Nat) (l : List α), l.length ≤ fuel → (chunksGo b fuel l).flatten = l := by
  intro fuel
  induction fuel with
  | zero =>
    intro l hl
    cases l with
    | nil => rfl
    | cons x xs => simp at hl
  | succ f ih =>
    intro l hl
    cases l with
    | nil => rfl
    | cons x xs =>
      have hdrop : ((x :: xs).drop b).length ≤ f := by
        rw [List.length_drop]
        simp only [List.length_cons] at hl ⊢
        omega
      rw [show chunksGo b (f + 1) (x :: xs)
            = (x :: xs).take b :: chunksGo b f ((x :: xs).drop b) from rfl]
      rw [List.flatten_cons, ih _ hdrop, List.take_append_drop]

theorem chunks_flatten {b : Nat} (hb : 0 < b) (l : List α) :
    (chunks b l).flatten = l :=
  chunksGo_flatten hb l.length l le_rfl

theorem flatten_map_filterMap (g : α → Option β) :
    ∀ L : List (List α), (L.map (fun l => l.filterMap g)).flatten = L.flatten.filterMap g := by
  intro L
  induction L with
  | nil => rfl
  | cons d L ih =>
    simp only [List.map_cons, List.flatten_cons, ih, List.filterMap_append]

theorem flatten_filter_not_empty :
    ∀ L : List (List α), (L.filter (fun d => !d.isEmpty)).flatten = L.flatten := by
  intro L
  induction L with
  | nil => rfl
  | cons d L ih =>
    cases d with
    | nil => simpa using ih
    | cons x xs => simpa using ih

theorem filter_not_empty_isEmpty (L : List (List α)) :
    (L.filter (fun d => !d.isEmpty)).isEmpty = L.flatten.isEmpty := by
  induction L with
  | nil => rfl
  | cons d L ih =>
    cases d with
    | nil => simpa using ih
    | cons x xs => simp

/-- Normal form of article assembly for a positive batch size: the batch
structure disappears, leaving one pass over the discovered file list. -/
theorem process_nf (parseTs : String → Option Nat) (files : List XmlFile)
    {b : Nat} (it : Bool) (hb : 0 < b) :
    process_article_directory parseTs files b it =
      (if files.isEmpty then (.ok none, ([] : List String))
       else if (files.filterMap (rowOf it)).isEmpty then (.ok none, files.filterMap logOf)
       else
         match (files.filterMap (rowOf it)).mapM (toDatetimeRow parseTs) with
         | .error e => (.error e, files.filterMap logOf)
         | .ok frows => (.ok (some (sort_values_desc frows.enum)), files.filterMap logOf)) := by
  unfold process_article_directory
  by_cases hf : files.isEmpty
  · simp [hf]
  · simp only [hf, if_false]
    have hmap : (chunks b files).map (fun c => processBatch c it) =
        (chunks b files).map (fun c => (c.filterMap (rowOf it), c.filterMap logOf)) := rfl
    have hlog : (((chunks b files).map (fun c => processBatch c it)).map Prod.snd).flatten
        = files.filterMap logOf := by
      rw [hmap, List.map_map]
      have : (Prod.snd ∘ fun c : List XmlFile => (c.filterMap (rowOf it), c.filterMap logOf))
          = fun c : List XmlFile => c.filterMap logOf := rfl
      rw [this, flatten_map_filterMap, chunks_flatten hb]
    have hrows : (((chunks b files).map (fun c => processBatch c it)).map Prod.fst)
        = (chunks b files).map (fun c => c.filterMap (rowOf it)) := by
      rw [hmap, List.map_map]
      rfl
    have hjoin : ((((chunks b files).map (fun c => processBatch c it)).map Prod.fst).filter
          (fun d => !d.isEmpty)).flatten = files.filterMap (rowOf it) := by
      rw [hrows, flatten_filter_not_empty, flatten_map_filterMap, chunks_flatten hb]
    have hempty : ((((chunks b files).map (fun c => processBatch c it)).map Prod.fst).filter
          (fun d => !d.isEmpty)).isEmpty = (files.filterMap (rowOf it)).isEmpty := by
      rw [hrows, filter_not_empty_isEmpty, flatten_map_filterMap, chunks_flatten hb]
    simp only [hlog, hjoin, hempty]

/-! ### Order of the embedded sort -/

/-- Order in which the stable nondescending pass lays out the PRE-REVERSED
non-NaT rows: keys nondecreasing, and rows with equal keys keep the order of
the reversed input, i.e. strictly decreasing pre-sort index. -/
def AscLex (a c : Nat × FinalRow) : Prop :=
  tsKey a < tsKey c ∨ (tsKey a = tsKey c ∧ c.1 < a.1)

theorem AscLex.key_le {a c : Nat × FinalRow} (h : AscLex a c) : tsKey a ≤ tsKey c := by
  rcases h with h | ⟨h, _⟩
  · exact Nat.le_of_lt h
  · exact Nat.le_of_eq h

theorem mem_insertAsc {z x : Nat × FinalRow} :
    ∀ {l : List (Nat × FinalRow)}, z ∈ insertAsc x l → z = x ∨ z ∈ l := by
  intro l
  induction l with
  | nil =>
    intro h
    simpa [insertAsc] using h
  | cons y ys ih =>
    intro h
    rw [insertAsc] at h
    by_cases hk : tsKey x < tsKey y
    · rw [if_pos hk] at h
      rcases List.mem_cons.mp h with h | h
      · exact Or.inl h
      · exact Or.inr h
    · rw [if_neg hk] at h
      rcases List.mem_cons.mp h with h | h
      · exact Or.inr (h ▸ List.mem_cons_self y ys)
      · rcases ih h with h2 | h2
        · exact Or.inl h2
        · exact Or.inr (List.mem_cons_of_mem y h2)

theorem insertAsc_pairwise {x : Nat × FinalRow} :
    ∀ {acc : List (Nat × FinalRow)}, acc.Pairwise AscLex →
      (∀ y ∈ acc, tsKey y = tsKey x → x.1 < y.1) →
      (insertAsc x acc).Pairwise AscLex := by
  intro acc
  induction acc with
  | nil =>
    intro _ _
    simp [insertAsc]
  | cons y ys ih =>
    intro hp hx
    rw [List.pairwise_cons] at hp
    rw [insertAsc]
    by_cases hk : tsKey x < tsKey y
    · rw [if_pos hk]
      refine List.Pairwise.cons ?_ (List.Pairwise.cons hp.1 hp.2)
      intro z hz
      rcases List.mem_cons.mp hz with hz | hz
      · exact hz ▸ Or.inl hk
      · exact Or.inl (Nat.lt_of_lt_of_le hk (hp.1 z hz).key_le)
    · rw [if_neg hk]
      refine List.Pairwise.cons ?_ (ih hp.2 (fun a ha he => hx a (List.mem_cons_of_mem y ha) he))
      intro z hz
      rcases mem_insertAsc hz with hz | hz
      · subst hz
        rcases Nat.lt_or_ge (tsKey y) (tsKey z) with hlt | hge
        · exact Or.inl hlt
        · have he : tsKey y = tsKey z := Nat.le_antisymm (Nat.le_of_not_lt hk) hge
          exact Or.inr ⟨he, hx y (List.mem_cons_self y ys) he⟩
      · exact hp.1 z hz

theorem foldl_insert_mem {z : Nat × FinalRow} :
    ∀ {l acc : List (Nat × FinalRow)},
      z ∈ l.foldl (fun a x => insertAsc x a) acc → z ∈ l ∨ z ∈ acc := by
  intro l
  induction l with
  | nil =>
    intro acc h
    exact Or.inr h
  | cons x xs ih =>
    intro acc h
    rw [List.foldl_cons] at h
    rcases ih h with h2 | h2
    · exact Or.inl (List.mem_cons_of_mem x h2)
    · rcases mem_insertAsc h2 with h3 | h3
      · exact Or.inl (h3 ▸ List.mem_cons_self x xs)
      · exact Or.inr h3

theorem foldl_insert_pairwise :
    ∀ {l acc : List (Nat × FinalRow)}, acc.Pairwise AscLex →
      l.Pairwise (fun a c => c.1 < a.1) →
      (∀ a ∈ acc, ∀ c ∈ l, c.1 < a.1) →
      (l.foldl (fun a x => insertAsc x a) acc).Pairwise AscLex := by
  intro l
  induction l with
  | nil =>
    intro acc hacc _ _
    exact hacc
  | cons x xs ih =>
    intro acc hacc hl hcross
    rw [List.pairwise_cons] at hl
    rw [List.foldl_cons]
    refine ih ?_ hl.2 ?_
    · exact insertAsc_pairwise hacc
        (fun y hy _ => hcross y hy x (List.mem_cons_self x xs))
    · intro a ha c hc
      rcases mem_insertAsc ha with h2 | h2
      · exact h2 ▸ hl.1 c hc
      · exact hcross a h2 c (List.mem_cons_of_mem x hc)

theorem mem_isortAsc {z : Nat × FinalRow} {l : List (Nat × FinalRow)}
    (h : z ∈ isortAsc l) : z ∈ l := by
  rcases foldl_insert_mem h with h2 | h2
  · exact h2
  · cases h2

theorem isortAsc_pairwise {l : List (Nat × FinalRow)}
    (h : l.Pairwise (fun a c => c.1 < a.1)) : (isortAsc l).Pairwise AscLex :=
  foldl_insert_pairwise List.Pairwise.nil h (by intro a ha; cases ha)

theorem mem_enumFrom_le {α : Type u} :
    ∀ (l : List α) (n : Nat) (p : Nat × α), p ∈ l.enumFrom n → n ≤ p.1 := by
  intro l
  induction l with
  | nil =>
    intro n p h
    cases h
  | cons x xs ih =>
    intro n p h
    rw [List.enumFrom_cons] at h
    rcases List.mem_cons.mp h with h | h
    · exact h ▸ Nat.le_refl n
    · exact Nat.le_of_succ_le (ih (n + 1) p h)

theorem enumFrom_fst_lt {α : Type u} :
    ∀ (l : List α) (n : Nat), (l.enumFrom n).Pairwise (fun a c => a.1 < c.1) := by
  intro l
  induction l with
  | nil =>
    intro n
    exact List.Pairwise.nil
  | cons x xs ih =>
    intro n
    rw [List.enumFrom_cons]
    refine List.Pairwise.cons ?_ (ih (n + 1))
    intro p hp
    exact Nat.lt_of_lt_of_le (Nat.lt_succ_self n) (mem_enumFrom_le xs (n + 1) p hp)

theorem enum_fst_lt {α : Type u} (l : List α) :
    l.enum.Pairwise (fun a c => a.1 < c.1) :=
  enumFrom_fst_lt l 0

/-- The embedded descending sort, applied to rows tagged with strictly
increasing pre-sort indices, yields a table in `afterInSortB` order: parsed
timestamps nonincreasing, NaT rows last, and ties laid out in their original
(increasing) pre-sort index order — the double reversal around the stable
pass makes the descending sort tie-stable. -/
theorem sort_values_desc_pairwise (rows : List (Nat × FinalRow))
    (h : rows.Pairwise (fun a c => a.1 < c.1)) :
    (sort_values_desc rows).Pairwise (fun a c => afterInSortB a c = true) := by
  unfold sort_values_desc
  rw [List.pairwise_append]
  have hrev : ((rows.filter hasTs).reverse).Pairwise (fun a c => c.1 < a.1) := by
    rw [List.pairwise_reverse]
    exact h.filter hasTs
  refine ⟨?_, ?_, ?_⟩
  · rw [List.pairwise_reverse]
    have hs : (isortAsc (rows.filter hasTs).reverse).Pairwise AscLex :=
      isortAsc_pairwise hrev
    refine hs.imp_of_mem ?_
    intro a c ha hc hac
    have hta : hasTs a :=
      (List.mem_filter.mp (List.mem_reverse.mp (mem_isortAsc ha))).2
    have htc : hasTs c :=
      (List.mem_filter.mp (List.mem_reverse.mp (mem_isortAsc hc))).2
    rcases Option.isSome_iff_exists.mp hta with ⟨x, hx⟩
    rcases Option.isSome_iff_exists.mp htc with ⟨y, hy⟩
    have hka : tsKey a = x := by simp [tsKey, hx]
    have hkc : tsKey c = y := by simp [tsKey, hy]
    rcases hac with hlt | ⟨he, hi⟩
    · rw [hka, hkc] at hlt
      simp [afterInSortB, hx, hy, Nat.le_of_lt hlt, Nat.ne_of_gt hlt]
    · rw [hka, hkc] at he
      simp [afterInSortB, hx, hy, Nat.le_of_eq he, hi]
  · refine List.pairwise_of_forall_mem_list ?_
    intro a ha c hc
    have hna : a.2.ts = none := by
      cases hv : a.2.ts with
      | none => rfl
      | some v =>
        have h2 := (List.mem_filter.mp ha).2
        simp [hasTs, hv] at h2
    have hnc : c.2.ts = none := by
      cases hv : c.2.ts with
      | none => rfl
      | some v =>
        have h2 := (List.mem_filter.mp hc).2
        simp [hasTs, hv] at h2
    simp [afterInSortB, hna, hnc]
  · intro a ha c hc
    have hta : hasTs a :=
      (List.mem_filter.mp
        (List.mem_reverse.mp (mem_isortAsc (List.mem_reverse.mp ha)))).2
    have hnc : c.2.ts = none := by
      cases hv : c.2.ts with
      | none => rfl
      | some v =>
        have h2 := (List.mem_filter.mp hc).2
        simp [hasTs, hv] at h2
    rcases Option.isSome_iff_exists.mp hta with ⟨x, hx⟩
    simp [afterInSortB, hx, hnc]

/-! ### Shape lemmas for the extractor -/

mutual
theorem findIn_elem : ∀ (nm : String) (n r : Node), findIn nm n = some r →
    ∃ s cs, r = Node.elem s cs
  | nm, .text s, r => by
    intro h
    simp [findIn] at h
  | nm, .elem n cs, r => by
    intro h
    rw [findIn] at h
    by_cases he : (n == nm) = true
    · rw [if_pos he] at h
      exact ⟨n, cs, (Option.some.inj h).symm⟩
    · rw [if_neg he] at h
      exact findInList_elem nm cs r h

theorem findInList_elem : ∀ (nm : String) (l : List Node) (r : Node), findInList nm l = some r →
    ∃ s cs, r = Node.elem s cs
  | nm, [], r => by
    intro h
    simp [findInList] at h
  | nm, c :: cs, r => by
    intro h
    rw [findInList] at h
    cases hc : findIn nm c with
    | some z =>
      rw [hc] at h
      exact (Option.some.inj h) ▸ findIn_elem nm c z hc
    | none =>
      rw [hc] at h
      exact findInList_elem nm cs r h
end

theorem find_elem {e : Node} {nm : String} {r : Node} (h : e.find nm = some r) :
    ∃ s cs, r = Node.elem s cs := by
  cases e with
  | text s => cases h
  | elem n cs => exact findInList_elem nm cs r h

theorem getText_of_not_truthy {r : Node} {s : String} {cs : List Node}
    (he : r = Node.elem s cs) (ht : truthy r = false) : r.getText = "" := by
  subst he
  cases cs with
  | nil => rfl
  | cons c cs => simp [truthy] at ht

/-- The `text_content` local of the source equals the claim-side
`revisionTextContent` value: an absent element and a present-but-empty
element both give the empty string. -/
theorem text_content_eq (rev : Node) :
    (match textIfTruthy (rev.find "text") with
     | some s => s
     | none => "") =
      (match rev.find "text" with
       | none => ""
       | some te => te.getText) := by
  cases hf : rev.find "text" with
  | none => rfl
  | some te =>
    cases ht : truthy te with
    | true => simp [textIfTruthy, ht]
    | false =>
      rcases find_elem hf with ⟨s, cs, he⟩
      have hg : te.getText = "" := getText_of_not_truthy he ht
      simp [textIfTruthy, ht, hg]

/-- Unfolding of a successful extraction: the record fields as functions of
the revision element found in the document. -/
theorem parse_some_shape (doc : List Node) (it : Bool) (r : RevisionRecord) (rev : Node)
    (hf : findInList "revision" doc = some rev)
    (h : parse_revision_xml doc it = some r) :
    truthy rev = true
    ∧ r.revision_id = textIfTruthy (rev.find "id")
    ∧ r.timestamp = textIfTruthy (rev.find "timestamp")
    ∧ r.comment = textIfTruthy (rev.find "comment")
    ∧ r.username = (match rev.find "contributor" with
                    | some c => if truthy c then contributorFields c else (none, none)
                    | none => (none, none)).1
    ∧ r.userid = (match rev.find "contributor" with
                  | some c => if truthy c then contributorFields c else (none, none)
                  | none => (none, none)).2
    ∧ r.text_length = (match textIfTruthy (rev.find "text") with
                       | some s => s
                       | none => "").length
    ∧ r.text = (if it then some (match textIfTruthy (rev.find "text") with
                                 | some s => s
                                 | none => "") else none) := by
  unfold parse_revision_xml at h
  rw [hf] at h
  replace h :
      (if truthy rev then
        some ({ revision_id := textIfTruthy (rev.find "id")
                timestamp := textIfTruthy (rev.find "timestamp")
                username := (match rev.find "contributor" with
                             | some c => if truthy c then contributorFields c else (none, none)
                             | none => (none, none)).1
                userid := (match rev.find "contributor" with
                           | some c => if truthy c then contributorFields c else (none, none)
                           | none => (none, none)).2
                comment := textIfTruthy (rev.find "comment")
                text_length := (match textIfTruthy (rev.find "text") with
                                | some s => s
                                | none => "").length
                text := if it then some (match textIfTruthy (rev.find "text") with
                                         | some s => s
                                         | none => "") else none } : RevisionRecord)
      else none) = some r := h
  by_cases ht : truthy rev = true
  · rw [if_pos ht] at h
    have hr := Option.some.inj h
    refine ⟨ht, ?_, ?_, ?_, ?_, ?_, ?_, ?_⟩ <;> rw [← hr]
  · rw [if_neg ht] at h
    cases h

/-! ### `pd.to_datetime` over the whole column -/

theorem toDatetimeRow_error {parseTs : String → Option Nat} {r : Row}
    (hb : badTs parseTs r = true) :
    ∃ e, toDatetimeRow parseTs r = .error e := by
  unfold badTs at hb
  cases hs : r.record.timestamp with
  | none => rw [hs] at hb; simp at hb
  | some s =>
    rw [hs] at hb
    replace hb : (parseTs s).isNone = true := hb
    cases hp : parseTs s with
    | none => exact ⟨"could not convert " ++ s, by simp [toDatetimeRow, hs, hp]⟩
    | some v => rw [hp] at hb; simp at hb

theorem toDatetimeRow_ok {parseTs : String → Option Nat} {r : Row}
    (hg : goodTs parseTs r = true) :
    ∃ y, toDatetimeRow parseTs r = .ok y := by
  unfold goodTs at hg
  cases hs : r.record.timestamp with
  | none => exact ⟨{ row := r, ts := none }, by simp [toDatetimeRow, hs]⟩
  | some s =>
    rw [hs] at hg
    replace hg : (parseTs s).isSome = true := hg
    cases hp : parseTs s with
    | none => rw [hp] at hg; simp at hg
    | some v => exact ⟨{ row := r, ts := some v }, by simp [toDatetimeRow, hs, hp]⟩

theorem mapM_toDatetime_not_ok (parseTs : String → Option Nat) :
    ∀ (l : List Row), (∃ r ∈ l, badTs parseTs r = true) →
      isOkE (l.mapM (toDatetimeRow parseTs)) = false := by
  intro l
  induction l with
  | nil =>
    intro h
    rcases h with ⟨r, hr, _⟩
    cases hr
  | cons x xs ih =>
    intro h
    rw [List.mapM_cons]
    rcases h with ⟨r, hr, hb⟩
    rcases List.mem_cons.mp hr with hr | hr
    · rcases toDatetimeRow_error (hr ▸ hb) with ⟨e, he⟩
      rw [he]
      rfl
    · cases hx : toDatetimeRow parseTs x with
      | error e => rfl
      | ok y =>
        have hxs := ih ⟨r, hr, hb⟩
        cases hm : xs.mapM (toDatetimeRow parseTs) with
        | error e => rfl
        | ok ys =>
          rw [hm] at hxs
          simp [isOkE] at hxs

theorem mapM_toDatetime_ok (parseTs : String → Option Nat) :
    ∀ (l : List Row), (∀ r ∈ l, goodTs parseTs r = true) →
      isOkE (l.mapM (toDatetimeRow parseTs)) = true := by
  intro l
  induction l with
  | nil =>
    intro _
    rfl
  | cons x xs ih =>
    intro h
    rw [List.mapM_cons]
    rcases toDatetimeRow_ok (h x (List.mem_cons_self x xs)) with ⟨y, hy⟩
    have hxs := ih (fun r hr => h r (List.mem_cons_of_mem x hr))
    cases hm : xs.mapM (toDatetimeRow parseTs) with
    | error e => rw [hm] at hxs; cases hxs
    | ok ys => simp only [hy, hm]; rfl

/-! ### Claim C2: batching is transparent -/

/-- Claim C2: for a fixed discovered file list (and fixed per-file contents),
assembling an article with any two positive batch sizes yields identical
results — the batch size affects only the chunking of processing, never any
value or row order of the final sorted table (nor the error log or the
outcome kind). -/
theorem batch_size_transparent (parseTs : String → Option Nat) (files : List XmlFile)
    (it : Bool) (b1 b2 : Nat) (h1 : 0 < b1) (h2 : 0 < b2) :
    process_article_directory parseTs files b1 it
      = process_article_directory parseTs files b2 it := by
  rw [process_nf parseTs files it h1, process_nf parseTs files it h2]

/-! ### Claim C1: order of the assembled table -/

/-- Claim C1: whenever assembly of an article succeeds with a table, that
table is sorted by parsed timestamp value in descending order (`NaT` rows
last), and any two rows with EQUAL parsed timestamps appear in the output in
the SAME relative order they had in the concatenated pre-sort table
(file-discovery order) — the sort is stable on ties, because the reference
sort reverses the non-NaT rows both before and after its stable
nondescending pass. -/
theorem assembled_table_sorted_desc (parseTs : String → Option Nat) (files : List XmlFile)
    (b : Nat) (it : Bool) (t : List (Nat × FinalRow)) (log : List String) (hb : 0 < b)
    (h : process_article_directory parseTs files b it = (.ok (some t), log)) :
    t.Pairwise (fun a c => afterInSortB a c = true) := by
  rw [process_nf parseTs files it hb] at h
  by_cases hf : files.isEmpty = true
  · rw [if_pos hf] at h
    exact absurd (congrArg Prod.fst h) (by simp)
  · rw [if_neg hf] at h
    by_cases he : (files.filterMap (rowOf it)).isEmpty = true
    · rw [if_pos he] at h
      exact absurd (congrArg Prod.fst h) (by simp)
    · rw [if_neg he] at h
      cases hm : (files.filterMap (rowOf it)).mapM (toDatetimeRow parseTs) with
      | error e =>
        rw [hm] at h
        exact absurd (congrArg Prod.fst h) (by simp)
      | ok frows =>
        rw [hm] at h
        have ht : sort_values_desc frows.enum = t := by
          have h2 := congrArg Prod.fst h
          simpa using h2
        rw [← ht]
        exact sort_values_desc_pairwise frows.enum (enum_fst_lt frows)

/-- Concrete timestamp parser for the scenarios: accepts exactly "T". -/
def cParse : String → Option Nat := fun s => if s == "T" then some 5 else none

/-- A well-formed revision file whose timestamp is "T". -/
def c1fileA : XmlFile :=
  { path := "a.xml", year := "2020", month := "01",
    content := .ok [Node.elem "revision" [Node.elem "timestamp" [Node.text "T"]]] }

/-- A second file identical in content to `c1fileA` (equal timestamp). -/
def c1fileB : XmlFile :=
  { path := "b.xml", year := "2020", month := "01",
    content := .ok [Node.elem "revision" [Node.elem "timestamp" [Node.text "T"]]] }

/-- The table assembled from the two equal-timestamp files. -/
def c1table : List (Nat × FinalRow) :=
  match (process_article_directory cParse [c1fileA, c1fileB] 1000 false).1 with
  | .ok (some t) => t
  | _ => []

/-- Witness for C1 at the concrete two-file article with equal timestamps:
both rows parse to the value 5, and the assembled table keeps them in their
file-discovery index order [0, 1], as the theorem's tie clause demands. -/
theorem assembled_table_sorted_desc_witness :
    c1table.map Prod.fst = [0, 1]
    ∧ c1table.map (fun p => p.2.ts) = [some 5, some 5]
    ∧ c1table.Pairwise (fun a c => afterInSortB a c = true) :=
  ⟨rfl, rfl,
    assembled_table_sorted_desc cParse [c1fileA, c1fileB] 1000 false c1table []
      (by decide) rfl⟩

/-- Four single-revision files with distinct paths, for the batching
scenario. -/
def c2files : List XmlFile :=
  [c1fileA, c1fileB,
   { path := "c.xml", year := "2021", month := "02",
     content := .ok [Node.elem "revision" [Node.elem "timestamp" [Node.text "T"]]] },
   { path := "d.xml", year := "2021", month := "03",
     content := .error "bad file" }]

/-- Witness for C2: batch sizes 3 and 1000 over the same four files. -/
theorem batch_size_transparent_witness :
    0 < 3 ∧ 0 < 1000 ∧
      process_article_directory cParse c2files 3 false
        = process_article_directory cParse c2files 1000 false :=
  ⟨by decide, by decide,
    batch_size_transparent cParse c2files false 3 1000 (by decide) (by decide)⟩

/-! ### Claims C3, C4, C5: the field contract of the extractor -/

theorem textIfTruthy_eq_some {o : Option Node} {e : Node}
    (h1 : o = some e) (h2 : truthy e = true) : textIfTruthy o = some e.getText := by
  rw [h1, textIfTruthy, if_pos h2]

theorem textIfTruthy_eq_none {o : Option Node}
    (h : truthyOpt o = false) : textIfTruthy o = none := by
  cases o with
  | none => rfl
  | some n =>
    replace h : truthy n = false := h
    rw [textIfTruthy, if_neg (by simp [h])]

/-- Claim C3: for every fragment from which a record is extracted,
`text_length` equals the character length of the text content of the revision
(zero when that content is empty or the text element is missing), whatever
the `include_text` flag is; and the `text` field is present in the record if
and only if `include_text` is set (in which case it carries exactly that
content). -/
theorem text_length_contract (doc : List Node) (it : Bool) (r : RevisionRecord)
    (h : parse_revision_xml doc it = some r) :
    r.text_length = (revisionTextContent doc).length
    ∧ (r.text.isSome ↔ it = true)
    ∧ r.text = (if it then some (revisionTextContent doc) else none) := by
  cases hf : findInList "revision" doc with
  | none =>
    unfold parse_revision_xml at h
    rw [hf] at h
    cases h
  | some rev =>
    obtain ⟨ht, hid, hts, hcm, hun, hui, hlen, htext⟩ := parse_some_shape doc it r rev hf h
    have hc : (match textIfTruthy (rev.find "text") with
               | some s => s
               | none => "") = revisionTextContent doc := by
      rw [text_content_eq rev]
      unfold revisionTextContent
      rw [hf]
    refine ⟨?_, ?_, ?_⟩
    · rw [hlen, hc]
    · rw [htext]
      cases it <;> simp
    · rw [htext, hc]

/-- Scenario for the C3 witness: revision with a two-character text. -/
def c3doc : List Node := [Node.elem "revision" [Node.elem "text" [Node.text "ab"]]]

/-- The record extracted from `c3doc` with text retention on. -/
def c3rec : RevisionRecord :=
  { revision_id := none, timestamp := none, username := none, userid := none,
    comment := none, text_length := 2, text := some "ab" }

/-- Witness for C3 at `c3doc`. -/
theorem text_length_contract_witness :
    parse_revision_xml c3doc true = some c3rec
    ∧ (c3rec.text_length = (revisionTextContent c3doc).length
       ∧ (c3rec.text.isSome ↔ true = true)
       ∧ c3rec.text = (if true then some (revisionTextContent c3doc) else none)) :=
  ⟨rfl, text_length_contract c3doc true c3rec rfl⟩

/-- Input on which claim C4 fails: the revision has NO `id` child of its
own, but its contributor has one, which the recursive lookup picks up. -/
def c4doc : List Node :=
  [Node.elem "revision"
    [Node.elem "contributor"
      [Node.elem "id" [Node.text "7"], Node.elem "username" [Node.text "u"]],
     Node.elem "timestamp" [Node.text "T"]]]

/-- The revision element of `c4doc`. -/
def c4rev : Node :=
  Node.elem "revision"
    [Node.elem "contributor"
      [Node.elem "id" [Node.text "7"], Node.elem "username" [Node.text "u"]],
     Node.elem "timestamp" [Node.text "T"]]

/-- Claim C4 (counterexample to the claim as stated): the revision element
has no `id` child element of its own, yet the extracted `revision_id` is
`"7"` — taken from the nested `id` of the contributor — instead of being recorded
as absent: fields are read by recursive descendant search, not from own
child elements of the revision. -/
theorem c4_counterexample :
    findInList "revision" c4doc = some c4rev
    ∧ findChild c4rev "id" = none
    ∧ (parse_revision_xml c4doc false).map (fun r => r.revision_id) = some (some "7") :=
  ⟨rfl, rfl, rfl⟩

/-- Claim C4 (amended): each of `revision_id`, `timestamp`, `comment` is
read independently from the FIRST matching descendant element of the
revision (not necessarily a direct child): a nonempty such element yields its
text, a missing-or-empty one yields an absent field, and no absence of one field
affects the others; `text` follows the same lookup but defaults to the empty
string and is present exactly when `include_text` is set. -/
theorem fields_from_first_descendant (doc : List Node) (it : Bool) (r : RevisionRecord)
    (rev : Node)
    (h : parse_revision_xml doc it = some r)
    (hf : findInList "revision" doc = some rev) :
    (∀ e, rev.find "id" = some e → truthy e = true → r.revision_id = some e.getText)
    ∧ (truthyOpt (rev.find "id") = false → r.revision_id = none)
    ∧ (∀ e, rev.find "timestamp" = some e → truthy e = true → r.timestamp = some e.getText)
    ∧ (truthyOpt (rev.find "timestamp") = false → r.timestamp = none)
    ∧ (∀ e, rev.find "comment" = some e → truthy e = true → r.comment = some e.getText)
    ∧ (truthyOpt (rev.find "comment") = false → r.comment = none)
    ∧ (it = true → r.text = some ((textIfTruthy (rev.find "text")).getD ""))
    ∧ (it = false → r.text = none) := by
  obtain ⟨ht, hid, hts, hcm, hun, hui, hlen, htext⟩ := parse_some_shape doc it r rev hf h
  refine ⟨?_, ?_, ?_, ?_, ?_, ?_, ?_, ?_⟩
  · intro e he hte
    rw [hid, textIfTruthy_eq_some he hte]
  · intro he
    rw [hid, textIfTruthy_eq_none he]
  · intro e he hte
    rw [hts, textIfTruthy_eq_some he hte]
  · intro he
    rw [hts, textIfTruthy_eq_none he]
  · intro e he hte
    rw [hcm, textIfTruthy_eq_some he hte]
  · intro he
    rw [hcm, textIfTruthy_eq_none he]
  · intro hit
    rw [htext, hit]
    cases hx : textIfTruthy (rev.find "text") <;> simp [hx]
  · intro hit
    rw [htext, hit]
    rfl

/-- Scenario for the C4 witness: revision with its own nonempty `id`,
`timestamp` and `text` elements and no `comment`. -/
def c4wdoc : List Node :=
  [Node.elem "revision"
    [Node.elem "id" [Node.text "1"], Node.elem "timestamp" [Node.text "T"],
     Node.elem "text" [Node.text "xy"]]]

/-- The record extracted from `c4wdoc` with text retention on. -/
def c4wrec : RevisionRecord :=
  { revision_id := some "1", timestamp := some "T", username := none, userid := none,
    comment := none, text_length := 2, text := some "xy" }

/-- Witness for the amended C4 theorem at `c4wdoc`. -/
theorem fields_from_first_descendant_witness :
    c4wrec.revision_id = some "1" ∧ c4wrec.timestamp = some "T"
    ∧ c4wrec.comment = none ∧ c4wrec.text = some "xy" := by
  have T := fields_from_first_descendant c4wdoc true c4wrec
    (Node.elem "revision"
      [Node.elem "id" [Node.text "1"], Node.elem "timestamp" [Node.text "T"],
       Node.elem "text" [Node.text "xy"]]) rfl rfl
  exact ⟨T.1 (Node.elem "id" [Node.text "1"]) rfl rfl,
    T.2.2.1 (Node.elem "timestamp" [Node.text "T"]) rfl rfl,
    T.2.2.2.2.2.1 rfl,
    T.2.2.2.2.2.2.1 rfl⟩

/-- Input on which claim C5 fails: the contributor contains a `username`
element (present, but empty) and an `ip` element. -/
def c5doc : List Node :=
  [Node.elem "revision"
    [Node.elem "contributor"
      [Node.elem "username" [], Node.elem "ip" [Node.text "1.2.3.4"]]]]

/-- The revision element of `c5doc`. -/
def c5rev : Node :=
  Node.elem "revision"
    [Node.elem "contributor"
      [Node.elem "username" [], Node.elem "ip" [Node.text "1.2.3.4"]]]

/-- The contributor element of `c5doc`. -/
def c5contrib : Node :=
  Node.elem "contributor" [Node.elem "username" [], Node.elem "ip" [Node.text "1.2.3.4"]]

/-- Claim C5 (counterexample to the claim as stated): the contributor is
present and contains a `username` element (whose text is the empty string),
so the claim requires `username = ""`; but the code treats the empty element
as absent (truthiness) and falls back to the IP, producing `"1.2.3.4"`. -/
theorem c5_counterexample :
    findInList "revision" c5doc = some c5rev
    ∧ c5rev.find "contributor" = some c5contrib
    ∧ c5contrib.find "username" = some (Node.elem "username" [])
    ∧ (Node.elem "username" ([] : List Node)).getText = ""
    ∧ (parse_revision_xml c5doc false).map (fun r => r.username) = some (some "1.2.3.4") :=
  ⟨rfl, rfl, rfl, rfl, rfl⟩

/-- Claim C5 (amended): writing "nonempty X" for a first X-descendant that
exists and has contents — if the revision has a nonempty contributor
descendant, then: `username` is the text of the first username
descendant of the contributor when that one is nonempty; when the first username
descendant is missing or empty, `username` falls back to the text of the
first nonempty `ip` descendant of the contributor (absent if that is missing or
empty); `userid` is likewise read from the first nonempty `id`
descendant of the contributor; and if the contributor is missing or empty, `username` and
`userid` are both absent. -/
theorem contributor_resolution (doc : List Node) (it : Bool) (r : RevisionRecord)
    (rev : Node)
    (h : parse_revision_xml doc it = some r)
    (hf : findInList "revision" doc = some rev) :
    (∀ c, rev.find "contributor" = some c → truthy c = true →
        (∀ u, c.find "username" = some u → truthy u = true → r.username = some u.getText)
      ∧ (truthyOpt (c.find "username") = false → r.username = textIfTruthy (c.find "ip"))
      ∧ r.userid = textIfTruthy (c.find "id"))
    ∧ (truthyOpt (rev.find "contributor") = false → r.username = none ∧ r.userid = none) := by
  obtain ⟨ht, hid, hts, hcm, hun, hui, hlen, htext⟩ := parse_some_shape doc it r rev hf h
  constructor
  · intro c hc htc
    rw [hc] at hun hui
    replace hun : r.username = (if truthy c then contributorFields c else (none, none)).1 := hun
    replace hui : r.userid = (if truthy c then contributorFields c else (none, none)).2 := hui
    rw [if_pos htc] at hun hui
    replace hun : r.username =
        (match c.find "username" with
         | some u => if truthy u then some u.getText else textIfTruthy (c.find "ip")
         | none => textIfTruthy (c.find "ip")) := hun
    replace hui : r.userid = textIfTruthy (c.find "id") := hui
    refine ⟨?_, ?_, hui⟩
    · intro u hu htu
      rw [hu] at hun
      replace hun : r.username =
          (if truthy u then some u.getText else textIfTruthy (c.find "ip")) := hun
      rw [if_pos htu] at hun
      exact hun
    · intro hu
      cases hcu : c.find "username" with
      | none =>
        rw [hcu] at hun
        exact hun
      | some u =>
        rw [hcu] at hu hun
        replace hu : truthy u = false := hu
        replace hun : r.username =
            (if truthy u then some u.getText else textIfTruthy (c.find "ip")) := hun
        rw [if_neg (by simp [hu])] at hun
        exact hun
  · intro hc
    cases hcc : rev.find "contributor" with
    | none =>
      rw [hcc] at hun hui
      exact ⟨hun, hui⟩
    | some c =>
      rw [hcc] at hc hun hui
      replace hc : truthy c = false := hc
      replace hun : r.username = (if truthy c then contributorFields c else (none, none)).1 := hun
      replace hui : r.userid = (if truthy c then contributorFields c else (none, none)).2 := hui
      rw [if_neg (by simp [hc])] at hun hui
      exact ⟨hun, hui⟩

/-- Scenario for the C5 witness: contributor with nonempty `username` and
`id` elements. -/
def c5wdoc : List Node :=
  [Node.elem "revision"
    [Node.elem "contributor"
      [Node.elem "username" [Node.text "bob"], Node.elem "id" [Node.text "9"]]]]

/-- The record extracted from `c5wdoc` (note: `revision_id` also picks up
the `id` of the contributor via the recursive lookup). -/
def c5wrec : RevisionRecord :=
  { revision_id := some "9", timestamp := none, username := some "bob", userid := some "9",
    comment := none, text_length := 0, text := none }

/-- Witness for the amended C5 theorem at `c5wdoc`. -/
theorem contributor_resolution_witness :
    c5wrec.username = some "bob" ∧ c5wrec.userid = some "9" := by
  have T := contributor_resolution c5wdoc false c5wrec
    (Node.elem "revision"
      [Node.elem "contributor"
        [Node.elem "username" [Node.text "bob"], Node.elem "id" [Node.text "9"]]]) rfl rfl
  have P := T.1
    (Node.elem "contributor"
      [Node.elem "username" [Node.text "bob"], Node.elem "id" [Node.text "9"]]) rfl rfl
  exact ⟨P.1 (Node.elem "username" [Node.text "bob"]) rfl rfl, P.2.2⟩

/-! ### Claim C6: an unparseable timestamp aborts the whole run -/

/-- Claim C6: if any assembled row of an article carries a timestamp string
the datetime conversion rejects, the error is caught nowhere — assembly does
not return normally, and the run driver stops with that exception: nothing
is written and no summary is printed for this or ANY subsequent article. -/
theorem timestamp_failure_aborts (parseTs : String → Option Nat) (b : Nat) (it : Bool)
    (name : String) (files : List XmlFile) (post : List (String × List XmlFile))
    (hb : 0 < b)
    (hbad : ∃ r ∈ (processBatch files it).1, badTs parseTs r = true) :
    isOkE (process_article_directory parseTs files b it).1 = false
    ∧ mainRun parseTs b it ((name, files) :: post) =
        { outputs := [], summaries := [], log := files.filterMap logOf,
          fatal := errOf (process_article_directory parseTs files b it).1 } := by
  rcases hbad with ⟨r, hr, hbr⟩
  replace hr : r ∈ files.filterMap (rowOf it) := hr
  have hfe : files.isEmpty = false := by
    cases files with
    | nil => cases hr
    | cons g gs => rfl
  have hre : (files.filterMap (rowOf it)).isEmpty = false := by
    cases hfm : files.filterMap (rowOf it) with
    | nil => rw [hfm] at hr; cases hr
    | cons a l => rfl
  have hnotok := mapM_toDatetime_not_ok parseTs (files.filterMap (rowOf it)) ⟨r, hr, hbr⟩
  cases hm : (files.filterMap (rowOf it)).mapM (toDatetimeRow parseTs) with
  | ok frows =>
    rw [hm] at hnotok
    simp [isOkE] at hnotok
  | error e =>
    have hpd : process_article_directory parseTs files b it
        = (.error e, files.filterMap logOf) := by
      rw [process_nf parseTs files it hb]
      simp only [hfe, hre, Bool.false_eq_true, if_false]
      rw [hm]
    constructor
    · rw [hpd]
      rfl
    · simp only [mainRun]
      rw [hpd]
      rfl

/-- File whose revision carries a timestamp `cParse` rejects. -/
def c6badfile : XmlFile :=
  { path := "bad.xml", year := "2020", month := "02",
    content := .ok [Node.elem "revision" [Node.elem "timestamp" [Node.text "X"]]] }

/-- Witness for C6: the bad-timestamp article aborts the run before the
following article is processed. -/
theorem timestamp_failure_aborts_witness :
    isOkE (process_article_directory cParse [c6badfile] 1000 false).1 = false
    ∧ mainRun cParse 1000 false [("Bad", [c6badfile]), ("Other", [c1fileA])] =
        { outputs := [], summaries := [], log := [c6badfile].filterMap logOf,
          fatal := errOf (process_article_directory cParse [c6badfile] 1000 false).1 } :=
  timestamp_failure_aborts cParse 1000 false "Bad" [c6badfile] [("Other", [c1fileA])]
    (by decide) (by decide)

/-! ### Claim C7: per-file failures are logged and isolated -/

/-- Claim C7: a file that fails to be opened, read or parsed is logged with
its path and the cause and contributes no row, while each remaining file has its
records are still produced, and the article does not abort (assembly still
returns normally when the timestamps of surviving rows convert). -/
theorem file_failure_isolated (parseTs : String → Option Nat) (b : Nat)
    (fs1 : List XmlFile) (f : XmlFile) (err : String) (fs2 : List XmlFile) (it : Bool)
    (hf : f.content = .error err) (hb : 0 < b)
    (hgood : ∀ r ∈ (processBatch (fs1 ++ f :: fs2) it).1, goodTs parseTs r = true) :
    (processBatch (fs1 ++ f :: fs2) it).1
      = (processBatch fs1 it).1 ++ (processBatch fs2 it).1
    ∧ (processBatch (fs1 ++ f :: fs2) it).2
      = (processBatch fs1 it).2
        ++ ("Error processing " ++ f.path ++ ": " ++ err) :: (processBatch fs2 it).2
    ∧ isOkE (process_article_directory parseTs (fs1 ++ f :: fs2) b it).1 = true := by
  have hrow : rowOf it f = none := by
    simp [rowOf, hf]
  have hlog : logOf f = some ("Error processing " ++ f.path ++ ": " ++ err) := by
    simp [logOf, hf]
  refine ⟨?_, ?_, ?_⟩
  · show (fs1 ++ f :: fs2).filterMap (rowOf it) = _
    rw [List.filterMap_append, List.filterMap_cons_none hrow]
    rfl
  · show (fs1 ++ f :: fs2).filterMap logOf = _
    rw [List.filterMap_append, List.filterMap_cons_some hlog]
    rfl
  · rw [process_nf parseTs _ it hb]
    have hfe : (fs1 ++ f :: fs2).isEmpty = false := by
      cases fs1 with
      | nil => rfl
      | cons x xs => rfl
    simp only [hfe, Bool.false_eq_true, if_false]
    by_cases hre : ((fs1 ++ f :: fs2).filterMap (rowOf it)).isEmpty = true
    · rw [if_pos hre]
      rfl
    · rw [if_neg hre]
      have hok := mapM_toDatetime_ok parseTs ((fs1 ++ f :: fs2).filterMap (rowOf it)) hgood
      cases hm : ((fs1 ++ f :: fs2).filterMap (rowOf it)).mapM (toDatetimeRow parseTs) with
      | error e =>
        rw [hm] at hok
        simp [isOkE] at hok
      | ok frows => rfl

/-- A file whose read fails with exception text "boom". -/
def c7badfile : XmlFile :=
  { path := "bad.xml", year := "2020", month := "02", content := .error "boom" }

/-- Witness for C7 at a three-file batch whose middle file is unreadable,
with batch size 2. -/
theorem file_failure_isolated_witness :
    (processBatch ([c1fileA] ++ c7badfile :: [c1fileB]) false).1
      = (processBatch [c1fileA] false).1 ++ (processBatch [c1fileB] false).1
    ∧ (processBatch ([c1fileA] ++ c7badfile :: [c1fileB]) false).2
      = (processBatch [c1fileA] false).2
        ++ ("Error processing " ++ c7badfile.path ++ ": " ++ "boom")
          :: (processBatch [c1fileB] false).2
    ∧ isOkE (process_article_directory cParse ([c1fileA] ++ c7badfile :: [c1fileB]) 2 false).1
        = true :=
  file_failure_isolated cParse 2 [c1fileA] c7badfile "boom" [c1fileB] false rfl
    (by decide) (by decide)

/-! ### Claim C8: a file without a revision element is skipped silently -/

/-- Claim C8: a file whose content has no `revision` element yields an empty
extraction result; the caller contributes no row for it and logs no error
line — unlike a read/parse failure. -/
theorem no_revision_silently_skipped (fs1 : List XmlFile) (f : XmlFile) (fs2 : List XmlFile)
    (it : Bool) (doc : List Node)
    (hc : f.content = .ok doc)
    (hnr : findInList "revision" doc = none) :
    parse_revision_xml doc it = none
    ∧ (processBatch (fs1 ++ f :: fs2) it).1
      = (processBatch fs1 it).1 ++ (processBatch fs2 it).1
    ∧ (processBatch (fs1 ++ f :: fs2) it).2
      = (processBatch fs1 it).2 ++ (processBatch fs2 it).2 := by
  have hp : parse_revision_xml doc it = none := by
    unfold parse_revision_xml
    rw [hnr]
  have hrow : rowOf it f = none := by
    simp [rowOf, hc, hp]
  have hlog : logOf f = none := by
    simp [logOf, hc]
  refine ⟨hp, ?_, ?_⟩
  · show (fs1 ++ f :: fs2).filterMap (rowOf it) = _
    rw [List.filterMap_append, List.filterMap_cons_none hrow]
    rfl
  · show (fs1 ++ f :: fs2).filterMap logOf = _
    rw [List.filterMap_append, List.filterMap_cons_none hlog]
    rfl

/-- A readable file whose content contains no revision element. -/
def c8file : XmlFile :=
  { path := "norev.xml", year := "2020", month := "03",
    content := .ok [Node.elem "page" [Node.text "z"]] }

/-- Witness for C8. -/
theorem no_revision_silently_skipped_witness :
    parse_revision_xml [Node.elem "page" [Node.text "z"]] false = none
    ∧ (processBatch ([c1fileA] ++ c8file :: [c1fileB]) false).1
      = (processBatch [c1fileA] false).1 ++ (processBatch [c1fileB] false).1
    ∧ (processBatch ([c1fileA] ++ c8file :: [c1fileB]) false).2
      = (processBatch [c1fileA] false).2 ++ (processBatch [c1fileB] false).2 :=
  no_revision_silently_skipped [c1fileA] c8file [c1fileB] false
    [Node.elem "page" [Node.text "z"]] rfl rfl

/-! ### Claim C9: empty articles are skipped, siblings unaffected -/

/-- Claim C9: an article with zero discovered files, or whose every file
contributed no row, makes assembly return empty; the driver writes no output
file and prints no summary for it and processes the remaining articles
exactly as it would have without it. -/
theorem empty_article_skipped (parseTs : String → Option Nat) (b : Nat) (it : Bool)
    (name : String) (files : List XmlFile) (post : List (String × List XmlFile))
    (hb : 0 < b)
    (h : files = [] ∨ (processBatch files it).1 = []) :
    (process_article_directory parseTs files b it).1 = .ok none
    ∧ (mainRun parseTs b it ((name, files) :: post)).outputs
        = (mainRun parseTs b it post).outputs
    ∧ (mainRun parseTs b it ((name, files) :: post)).summaries
        = (mainRun parseTs b it post).summaries
    ∧ (mainRun parseTs b it ((name, files) :: post)).fatal
        = (mainRun parseTs b it post).fatal := by
  have h1 : (process_article_directory parseTs files b it).1 = .ok none := by
    rw [process_nf parseTs files it hb]
    rcases h with h | h
    · subst h
      rfl
    · replace h : files.filterMap (rowOf it) = [] := h
      by_cases hfe : files.isEmpty = true
      · rw [if_pos hfe]
      · rw [if_neg hfe]
        rw [h]
        rfl
  refine ⟨h1, ?_⟩
  have hpd := (Prod.mk.eta (p := process_article_directory parseTs files b it)).symm
  rw [h1] at hpd
  simp only [mainRun]
  rw [hpd]
  exact ⟨rfl, rfl, rfl⟩

/-- Witness for C9: an article with zero discovered files, followed by a
normal article. -/
theorem empty_article_skipped_witness :
    (process_article_directory cParse [] 1000 false).1 = .ok none
    ∧ (mainRun cParse 1000 false [("Empty", []), ("Other", [c1fileA])]).outputs
        = (mainRun cParse 1000 false [("Other", [c1fileA])]).outputs
    ∧ (mainRun cParse 1000 false [("Empty", []), ("Other", [c1fileA])]).summaries
        = (mainRun cParse 1000 false [("Other", [c1fileA])]).summaries
    ∧ (mainRun cParse 1000 false [("Empty", []), ("Other", [c1fileA])]).fatal
        = (mainRun cParse 1000 false [("Other", [c1fileA])]).fatal :=
  empty_article_skipped cParse 1000 false "Empty" [] [("Other", [c1fileA])]
    (by decide) (Or.inl rfl)

/-! ### Claim C10: a contentless revision element yields no record -/

/-- A fragment whose (only) revision element is empty, as from
a self-closing tag. -/
def c10doc : List Node := [Node.elem "revision" []]

/-- Claim C10: a fragment CAN contain a revision element and still yield no
record: the element is found, but it is empty, and presence is decided by
element truthiness (contents nonempty) rather than existence — so extraction
returns empty for it under either flag value. -/
theorem empty_revision_yields_no_record :
    findInList "revision" c10doc = some (Node.elem "revision" [])
    ∧ parse_revision_xml c10doc false = none
    ∧ parse_revision_xml c10doc true = none :=
  ⟨rfl, rfl, rfl⟩

end XmlToDf
